import Mathlib

/-!
Verification of the lunet runtime (lua-lunet/lunet) against its
natural-language specification.

Shallow embedding of the relevant C source:
  * `src/src/co.c`       — coroutine spawn / resume and the alive-set anchor table
  * `src/src/su.c`       — storage unit: bitmap flush state machine, `su_is_written`
  * `src/src/paxe.c`     — PAXE frame decoder, keystore and standard-mode encryptor
  * `src/src/lunet_mem.c`— canary-tier allocator free path
  * `src/ext/easy_memory/easy_memory.h` — arena best-fit search and block free/merge
  * `src/src/socket.c`   — socket read/write return-value protocol

Machine integers are modelled as `Nat`/`Int` with explicit truncation where the
C code truncates.  External collaborators (the Lua C API, libuv, libsodium) are
modelled abstractly: a `lua_resume` outcome is a parameter, an AEAD cipher is an
executable stand-in with the same interface laws.
-/

namespace Lunet

/-! ## co.c — coroutine anchor table (alive-set)

The anchor table maps coroutine threads to `true`; we model coroutines as
naturals and the table as a boolean-valued map.  `lua_resume` is external; its
returned status is a parameter of the embedding. -/

/-- Status of a `lua_resume` call: `LUA_YIELD`, `LUA_OK`, or an error code. -/
inductive ResumeStatus where
  | yield
  | ok
  | err
deriving DecidableEq, Repr

/-- `lunet_co_anchor` (co.c:49): `anchortbl[thread] = true`. -/
def lunet_co_anchor (tbl : Nat → Bool) (co : Nat) : Nat → Bool :=
  fun c => if c = co then true else tbl c

/-- `lunet_co_unanchor` (co.c:58): `anchortbl[thread] = nil`. -/
def lunet_co_unanchor (tbl : Nat → Bool) (co : Nat) : Nat → Bool :=
  fun c => if c = co then false else tbl c

/-- `lunet_spawn` (co.c:66): resume the fresh coroutine once; anchor it iff the
resume returned `LUA_YIELD` (on error only a message is logged).  The resulting
anchor table is returned. -/
def lunet_spawn (tbl : Nat → Bool) (co : Nat) (status : ResumeStatus) : Nat → Bool :=
  if status = ResumeStatus.yield then
    lunet_co_anchor tbl co
  else
    tbl

/-- `lunet_co_resume` (co.c:92): wraps `lua_resume`; whenever the status is not
`LUA_YIELD` the coroutine is unanchored before returning.  Returns the new
anchor table and the status. -/
def lunet_co_resume (tbl : Nat → Bool) (co : Nat) (status : ResumeStatus) :
    (Nat → Bool) × ResumeStatus :=
  if status ≠ ResumeStatus.yield then
    (lunet_co_unanchor tbl co, status)
  else
    (tbl, status)

/-! ## su.c — bitmap flush state machine (one bitmap byte)

`bm_entry_t` (su.c:24) tracks one active bitmap byte: a generation counter, an
in-flight flag and a FIFO waiter list.  Waiters are identified by their target
generation (`su_write_ctx_t.target_gen`, distinct because every enqueue bumps
`gen`).  A `bm_flush_ctx_t` (su.c:76) is a live flush request; we record the
multiset of live flush requests by their `flush_gen` so "at most one in-flight
flush" is a provable property rather than a typing artefact.  Resumptions of
waiters are logged in `resumedOk` / `resumedErr`. -/

/-- `bm_entry_t` (su.c:24): generation, in-flight flag, waiter queue. -/
structure BmEntry where
  gen : Nat
  inflight : Bool
  waiters : List Nat
deriving DecidableEq, Repr

/-- Observable state of one bitmap byte plus the live flush contexts and the
log of waiter resumptions. -/
structure BmState where
  entry : BmEntry
  flights : List Nat
  resumedOk : List Nat
  resumedErr : List Nat
deriving DecidableEq, Repr

/-- `bm_start_flush` (su.c:242): a no-op returning 0 while a flush is in
flight; otherwise allocates a flush context capturing the current generation
and submits the bitmap write.  `launchOk = false` folds the two synchronous
failure paths (calloc failure; `uv_fs_write` submission failure, which resets
the in-flight flag and frees the context), both leaving the state unchanged
and returning a negative code. -/
def bm_start_flush (s : BmState) (launchOk : Bool) : BmState × Int :=
  if s.entry.inflight then (s, 0)
  else if launchOk then
    ({ s with entry := { s.entry with inflight := true },
              flights := s.flights ++ [s.entry.gen] }, 0)
  else (s, -1)

/-- The waiter-list walk shared by the error/success paths of `bm_flush_cb`
and `bm_fsync_cb` (su.c:277, su.c:339, su.c:358): unlink every waiter with
`target_gen ≤ flush_gen`, keeping the rest in queue order.  Returns
(removed, remaining). -/
def walkWaiters (g : Nat) : List Nat → List Nat × List Nat
  | [] => ([], [])
  | t :: rest =>
    let p := walkWaiters g rest
    if t ≤ g then (t :: p.1, p.2) else (p.1, t :: p.2)

/-- `bm_flush_cb` (su.c:270): on a bitmap-write failure (`req->result < 0`),
or on a failed `uv_fs_fsync` submission, every waiter with
`target_gen ≤ flush_gen` is resumed with the error, the in-flight flag is
cleared and the flush context freed — no new flush is started.  On success the
fsync is submitted and the flush context stays live. -/
def bm_flush_cb (s : BmState) (g : Nat) (writeOk fsyncLaunchOk : Bool) : BmState :=
  if writeOk ∧ fsyncLaunchOk then s
  else
    let p := walkWaiters g s.entry.waiters
    { entry := { s.entry with inflight := false, waiters := p.2 },
      flights := s.flights.erase g,
      resumedOk := s.resumedOk,
      resumedErr := s.resumedErr ++ p.1 }

/-- `bm_fsync_cb` (su.c:332): waiters with `target_gen ≤ flush_gen` are
resumed — with success if the fsync succeeded, with the error otherwise; the
flush is retired; and if waiters remain and the generation has moved past the
flushed one, a new flush is started (`launchOk` models its submission). -/
def bm_fsync_cb (s : BmState) (g : Nat) (fsyncOk launchOk : Bool) : BmState :=
  let p := walkWaiters g s.entry.waiters
  let s1 : BmState :=
    if fsyncOk then
      { s with entry := { s.entry with waiters := p.2 },
               resumedOk := s.resumedOk ++ p.1 }
    else
      { s with entry := { s.entry with waiters := p.2 },
               resumedErr := s.resumedErr ++ p.1 }
  let s2 : BmState :=
    { s1 with entry := { s1.entry with inflight := false },
              flights := s1.flights.erase g }
  if s2.entry.waiters ≠ [] ∧ s2.entry.gen > g then (bm_start_flush s2 launchOk).1
  else s2

/-- The `SU_WSTEP_DATA_FSYNC` branch of `su_write_step_cb` (su.c:568-612): bump
the generation, append this writer as a waiter with the new generation as its
target, and start or continue the bitmap flush.  If the flush submission fails
synchronously, the just-appended waiter is unlinked again (the pointer-equality
walk at su.c:593 removes exactly that node) and resumed with the error. -/
def su_bm_enqueue (s : BmState) (launchOk : Bool) : BmState :=
  let gen' := s.entry.gen + 1
  let s1 : BmState :=
    { s with entry := { s.entry with gen := gen', waiters := s.entry.waiters ++ [gen'] } }
  let r := bm_start_flush s1 launchOk
  if r.2 < 0 then
    { r.1 with entry := { r.1.entry with waiters := s.entry.waiters },
               resumedErr := r.1.resumedErr ++ [gen'] }
  else r.1

/-- Events that touch one bitmap byte's state. -/
inductive BmEvent where
  | enqueue (launchOk : Bool)
  | writeDone (g : Nat) (writeOk fsyncLaunchOk : Bool)
  | fsyncDone (g : Nat) (fsyncOk launchOk : Bool)
deriving DecidableEq, Repr

/-- An event is well-formed when the completing flush context is live. -/
def bmEventOk (s : BmState) : BmEvent → Prop
  | .enqueue _ => True
  | .writeDone g _ _ => g ∈ s.flights
  | .fsyncDone g _ _ => g ∈ s.flights

/-- Dispatch of one event. -/
def bmStep (s : BmState) : BmEvent → BmState
  | .enqueue lk => su_bm_enqueue s lk
  | .writeDone g w f => bm_flush_cb s g w f
  | .fsyncDone g f lk => bm_fsync_cb s g f lk

/-- State invariant: the in-flight flag mirrors the existence of a live flush
context, there is at most one live flush context, and every queued waiter's
target generation is at most the current generation. -/
def BmInv (s : BmState) : Prop :=
  (s.entry.inflight = true ↔ s.flights ≠ []) ∧
  s.flights.length ≤ 1 ∧
  ∀ t ∈ s.entry.waiters, t ≤ s.entry.gen

/-! ## su.c — `su_is_written` -/

/-- In-memory storage-unit state relevant to `su_is_written`: the committed
bitmap bytes and the address bound (su.c:33). -/
structure SuModel where
  max_addresses : Nat
  bm_bytes : List Nat
deriving DecidableEq, Repr

/-- `su_get_bit` (su.c:392): `(bm[byte_idx] & bit_mask) != 0`. -/
def su_get_bit (bm : List Nat) (byte_idx : Nat) (bit_mask : Nat) : Bool :=
  (bm.getD byte_idx 0) &&& bit_mask ≠ 0

/-- `su_is_written` (su.c:438): a closed unit (`ud->su == NULL`) or an
out-of-range address answers `false`; otherwise the committed bit for the
address is returned.  The userdatum holds `none` after `su_close`. -/
def su_is_written (su? : Option SuModel) (address : Nat) : Bool :=
  match su? with
  | none => false
  | some su =>
    if address ≥ su.max_addresses then
      false
    else
      su_get_bit su.bm_bytes (address >>> 3) (1 <<< (address % 8))

/-! ## paxe.c — PAXE frame decoder, keystore, standard-mode encryptor

Buffers are byte lists (`List Nat`, values < 256 where produced).  Big-endian
reads are embedded arithmetically: on byte values the C shift-and-or of
disjoint ranges equals the positional sum.  The libsodium primitives
(AES-256-GCM, ChaCha20-IETF) are external collaborators and are modelled by
executable stand-ins with the same interface laws: the GCM model appends a
16-byte tag determined by key, nonce, AAD and message, and checks it on
decryption; the ChaCha20 model XORs a key/nonce-determined stream. -/

def HEADER_LEN : Nat := 8
def NONCE_LEN : Nat := 12
def TAG_LEN : Nat := 16
def DEK_NONCE_LEN : Nat := 12
def DEK_LEN_FIELD_LEN : Nat := 2
def ENC_DEK_LEN : Nat := 32
def FLAG_DEK_MODE : Nat := 0x01
def OVERHEAD_STD : Nat := 36
def OVERHEAD_DEK : Nat := 82
def KEYSTORE_SIZE : Nat := 256

/-- `read_u16be` (paxe.c:44): `(p[0] << 8) | p[1]` over bytes. -/
def read_u16be (p : List Nat) : Nat :=
  (p.getD 0 0) * 256 + p.getD 1 0

/-- `read_u32be` (paxe.c:48): `(p[0] << 24) | (p[1] << 16) | (p[2] << 8) | p[3]`. -/
def read_u32be (p : List Nat) : Nat :=
  (p.getD 0 0) * 16777216 + (p.getD 1 0) * 65536 + (p.getD 2 0) * 256 + p.getD 3 0

/-- `keystore_entry_t` (paxe.c:35). -/
structure keystore_entry_t where
  key_id : Nat
  key : List Nat
  valid : Bool
deriving DecidableEq, Repr

/-- The `g_keystore` array, indexed modulo `KEYSTORE_SIZE`. -/
def Keystore : Type := Nat → keystore_entry_t

/-- The linear-probe loop of `keystore_get` (paxe.c:121): stop on a matching
valid entry or on the first invalid slot; the do-while wraps at most
`KEYSTORE_SIZE` times (the fuel). -/
def keystore_probe (ks : Keystore) (kid : Nat) : Nat → Nat → Option (List Nat)
  | _, 0 => none
  | idx, fuel + 1 =>
    let e := ks (idx % KEYSTORE_SIZE)
    if e.valid ∧ e.key_id = kid then some e.key
    else if ¬e.valid then none
    else keystore_probe ks kid ((idx + 1) % KEYSTORE_SIZE) fuel

/-- `keystore_get` (paxe.c:121). -/
def keystore_get (ks : Keystore) (kid : Nat) : Option (List Nat) :=
  keystore_probe ks kid (kid % KEYSTORE_SIZE) KEYSTORE_SIZE

/-- `paxe_stats_t` counters (paxe.h). -/
structure paxe_stats_t where
  rx_total : Nat
  rx_ok : Nat
  rx_short : Nat
  rx_len_mismatch : Nat
  rx_no_key : Nat
  rx_auth_fail : Nat
  rx_reserved_nonzero : Nat
deriving DecidableEq, Repr

/-- Failure reasons passed to `handle_failure` (paxe.c:158). -/
inductive PaxeFailReason where
  | packetTooShort
  | reservedNonzero
  | lengthMismatch
  | dekLengthMismatch
  | keyNotFound
  | authFailed
  | dekDecryptError
deriving DecidableEq, Repr

/-- The counter argument each `handle_failure` call site passes (paxe.c:205,
215, 226, 232, 259, 297, 305, 321, 328): note "dek length mismatch" counts
into `rx_len_mismatch` and "dek decrypt error" into `rx_auth_fail`. -/
def paxe_fail_counter (st : paxe_stats_t) : PaxeFailReason → paxe_stats_t
  | .packetTooShort => { st with rx_short := st.rx_short + 1 }
  | .reservedNonzero => { st with rx_reserved_nonzero := st.rx_reserved_nonzero + 1 }
  | .lengthMismatch => { st with rx_len_mismatch := st.rx_len_mismatch + 1 }
  | .dekLengthMismatch => { st with rx_len_mismatch := st.rx_len_mismatch + 1 }
  | .keyNotFound => { st with rx_no_key := st.rx_no_key + 1 }
  | .authFailed => { st with rx_auth_fail := st.rx_auth_fail + 1 }
  | .dekDecryptError => { st with rx_auth_fail := st.rx_auth_fail + 1 }

/-- Model of the external AES-256-GCM tag: 16 bytes determined by key, nonce,
AAD and message. -/
def gcmTag (key nonce aad msg : List Nat) : List Nat :=
  List.replicate TAG_LEN ((key.sum + nonce.sum + aad.sum + msg.sum) % 256)

/-- Model of `crypto_aead_aes256gcm_encrypt`: ciphertext = message ++ tag. -/
def gcm_encrypt (msg aad nonce key : List Nat) : List Nat :=
  msg ++ gcmTag key nonce aad msg

/-- Model of `crypto_aead_aes256gcm_decrypt`: check the trailing 16-byte tag
and return the message, or `none` on authentication failure. -/
def gcm_decrypt (ct aad nonce key : List Nat) : Option (List Nat) :=
  if TAG_LEN ≤ ct.length then
    if ct.drop (ct.length - TAG_LEN) = gcmTag key nonce aad (ct.take (ct.length - TAG_LEN)) then
      some (ct.take (ct.length - TAG_LEN))
    else none
  else none

/-- Model of the ChaCha20-IETF keystream over key and nonce. -/
def chacha_stream (key nonce : List Nat) (n : Nat) : List Nat :=
  (List.range n).map (fun i => (key.sum + nonce.sum + i) % 256)

/-- Model of `crypto_stream_chacha20_ietf_xor`: XOR the input with the
key/nonce stream (an involution, as for the real cipher). -/
def chacha_xor (input key nonce : List Nat) : List Nat :=
  (input.zip (chacha_stream key nonce input.length)).map (fun p => p.1 ^^^ p.2)

/-- `paxe_try_decrypt` (paxe.c:200): bump `rx_total`; length guard (< 36);
parse the 8-byte header, reject a nonzero reserved byte; select DEK mode from
flags bit 0 and check `len = declared_len + overhead` (36 standard, 82 DEK);
keystore lookup; AEAD-decrypt (standard in place, DEK after unwrapping the
DEK with the KEK stream); verify the recovered length; report plaintext,
key id and flags.  Failures return the reason (-1 in C) and bump the per-
reason counter. -/
def paxe_try_decrypt (ks : Keystore) (buf : List Nat) (st0 : paxe_stats_t) :
    Except PaxeFailReason (List Nat × Nat × Nat) × paxe_stats_t :=
  let st := { st0 with rx_total := st0.rx_total + 1 }
  if buf.length < HEADER_LEN + NONCE_LEN + TAG_LEN then
    (Except.error .packetTooShort, paxe_fail_counter st .packetTooShort)
  else
    let declared_len := read_u16be buf
    let flags := buf.getD 2 0
    let reserved := buf.getD 3 0
    let key_id := read_u32be (buf.drop 4)
    if reserved ≠ 0 then
      (Except.error .reservedNonzero, paxe_fail_counter st .reservedNonzero)
    else
      let is_dek := flags &&& FLAG_DEK_MODE ≠ 0
      let overhead := if is_dek then OVERHEAD_DEK else OVERHEAD_STD
      if buf.length ≠ declared_len + overhead then
        (Except.error .lengthMismatch, paxe_fail_counter st .lengthMismatch)
      else
        match keystore_get ks key_id with
        | none => (Except.error .keyNotFound, paxe_fail_counter st .keyNotFound)
        | some kek =>
          if ¬is_dek then
            let nonce := (buf.drop HEADER_LEN).take NONCE_LEN
            let ciphertext := buf.drop (HEADER_LEN + NONCE_LEN)
            match gcm_decrypt ciphertext (buf.take HEADER_LEN) nonce kek with
            | some plaintext =>
              if plaintext.length ≠ declared_len then
                (Except.error .lengthMismatch, paxe_fail_counter st .lengthMismatch)
              else
                (Except.ok (plaintext, key_id, flags),
                 { st with rx_ok := st.rx_ok + 1 })
            | none => (Except.error .authFailed, paxe_fail_counter st .authFailed)
          else
            let kek_nonce := (buf.drop HEADER_LEN).take NONCE_LEN
            let enc_dek := (buf.drop (HEADER_LEN + NONCE_LEN)).take ENC_DEK_LEN
            let dek_nonce :=
              (buf.drop (HEADER_LEN + NONCE_LEN + ENC_DEK_LEN)).take DEK_NONCE_LEN
            let dek_len_field :=
              read_u16be (buf.drop (HEADER_LEN + NONCE_LEN + ENC_DEK_LEN + DEK_NONCE_LEN))
            let ciphertext :=
              buf.drop (HEADER_LEN + NONCE_LEN + ENC_DEK_LEN + DEK_NONCE_LEN + DEK_LEN_FIELD_LEN)
            if dek_len_field ≠ declared_len then
              (Except.error .dekLengthMismatch, paxe_fail_counter st .dekLengthMismatch)
            else
              let dek := chacha_xor enc_dek kek kek_nonce
              match gcm_decrypt ciphertext (buf.take HEADER_LEN) dek_nonce dek with
              | some plaintext =>
                if plaintext.length ≠ declared_len then
                  (Except.error .lengthMismatch, paxe_fail_counter st .lengthMismatch)
                else
                  (Except.ok (plaintext, key_id, flags),
                   { st with rx_ok := st.rx_ok + 1 })
              | none => (Except.error .authFailed, paxe_fail_counter st .authFailed)

/-- The header bytes built at paxe.c:520-527: the plaintext length truncated
to 16 bits big-endian, zero flags and reserved byte, the key id in 32 bits
big-endian. -/
def paxe_header (plen key_id : Nat) : List Nat :=
  [(plen >>> 8) &&& 0xFF, plen &&& 0xFF, 0, 0,
   (key_id >>> 24) &&& 0xFF, (key_id >>> 16) &&& 0xFF,
   (key_id >>> 8) &&& 0xFF, key_id &&& 0xFF]

/-- `l_paxe_encrypt` (paxe.c:496), standard mode: keystore lookup (nil on a
missing key); the 8-byte header; a random 12-byte nonce (a parameter here);
AEAD encryption with the header as AAD. -/
def l_paxe_encrypt (ks : Keystore) (plaintext : List Nat) (key_id : Nat)
    (nonce : List Nat) : Option (List Nat) :=
  match keystore_get ks key_id with
  | none => none
  | some key =>
    let header := paxe_header plaintext.length key_id
    some (header ++ nonce ++ gcm_encrypt plaintext header nonce key)

/-! ## lunet_mem.c — canary-tier free path

The header that precedes every allocation is modelled at struct level
(`{canary, size}`); counters use `Int` like the C `int`/`int64_t` fields.
The poisoned region handed back to the backing allocator is reported as a byte
list so "header plus user region overwritten with 0xDE" is provable. -/

def LUNET_MEM_CANARY : Nat := 0x4C554E45
def LUNET_MEM_POISON : Nat := 0xDE

/-- The word compared against a corrupt canary to report a double free
(lunet_mem.c:204-205): four poison bytes. -/
def lunet_mem_poison_word : Nat :=
  LUNET_MEM_POISON ||| (LUNET_MEM_POISON <<< 8) |||
  (LUNET_MEM_POISON <<< 16) ||| (LUNET_MEM_POISON <<< 24)

/-- `lunet_mem_header_t` (lunet_mem.h:79): 8 bytes, two u32 fields. -/
structure lunet_mem_header_t where
  canary : Nat
  size : Nat
deriving DecidableEq, Repr

/-- `lunet_mem_state_t` (lunet_mem.h:85). -/
structure lunet_mem_state_t where
  alloc_count : Int
  free_count : Int
  alloc_bytes : Int
  free_bytes : Int
  current_bytes : Int
  peak_bytes : Int
deriving DecidableEq, Repr

/-- Diagnostic outcome of a free. -/
inductive FreeReport where
  | freed
  | doubleFree
  | canaryFail
deriving DecidableEq, Repr

/-- `lunet_mem_free_impl` (lunet_mem.c:197) on a non-null pointer: a canary
mismatch reports double-free when the canary word is four poison bytes
(else a use-after-free canary failure), leaves every counter untouched and
skips the free (`none`); a valid canary records the free (count +1, freed
bytes +size, current bytes −size) and overwrites header plus user region
(8 + size bytes) with the poison byte before handing the memory back. -/
def lunet_mem_free_impl (header : lunet_mem_header_t) (st : lunet_mem_state_t) :
    FreeReport × lunet_mem_state_t × Option (List Nat) :=
  if header.canary ≠ LUNET_MEM_CANARY then
    (if header.canary = lunet_mem_poison_word then FreeReport.doubleFree
     else FreeReport.canaryFail, st, none)
  else
    (FreeReport.freed,
     { st with free_count := st.free_count + 1,
               free_bytes := st.free_bytes + (header.size : Int),
               current_bytes := st.current_bytes - (header.size : Int) },
     some (List.replicate (8 + header.size) LUNET_MEM_POISON))

/-! ## easy_memory.h — free-block best-fit search -/

/-- A free block as `find_best_fit` sees it: its stored size and the address
of its data area (`block_data`). -/
structure EmBlock where
  bsize : Nat
  dataPtr : Nat
deriving DecidableEq, Repr

/-- `align_up` for a power-of-two alignment, written arithmetically:
`(p + a - 1) & ~(a - 1)` equals rounding up to the next multiple of `a`. -/
def align_up (p a : Nat) : Nat := ((p + a - 1) / a) * a

/-- The alignment padding of a block's data pointer
(easy_memory.h:1756-1758). -/
def em_padding (b : EmBlock) (alignment : Nat) : Nat :=
  align_up b.dataPtr alignment - b.dataPtr

/-- A block accommodates a request when its size covers the requested size
plus its own alignment padding (easy_memory.h:1765). -/
def em_accommodates (b : EmBlock) (size alignment : Nat) : Prop :=
  size + em_padding b alignment ≤ b.bsize

/-- The LLRB free-block tree, reduced to its binary-search structure. -/
inductive EmTree where
  | leaf
  | node (left : EmTree) (b : EmBlock) (right : EmTree)
deriving DecidableEq, Repr

/-- `find_best_fit` (easy_memory.h:1727), the loop read functionally with the
best-so-far as an accumulator: a block too small by size sends the search
right; a block large enough by size but not after alignment padding also
sends it right; a block that accommodates size plus padding is recorded
(kept only when strictly smaller than the previous best) and the search
continues left. -/
def find_best_fit : EmTree → Nat → Nat → Option EmBlock → Option EmBlock
  | .leaf, _, _, best => best
  | .node l b r, size, alignment, best =>
    if b.bsize < size then
      find_best_fit r size alignment best
    else if size + em_padding b alignment ≤ b.bsize then
      find_best_fit l size alignment
        (match best with
         | none => some b
         | some bb => if b.bsize < bb.bsize then some b else some bb)
    else
      find_best_fit r size alignment best

/-! ## easy_memory.h — block free and physical merge

The arena's physical layout is modelled as the list of blocks in address
order, each with its stored size and free flag; the last block of the list is
the tail (`em_get_tail`), which carries size 0 and no tree entry.  Freeing
block `x` is written on a zipper `(before, x, after)` whose full layout is
`before ++ x :: after`: `get_prev` is `before`'s last element, `next_block`
is `after`'s head.  When a merge reaches the tail the code resets the tail
size to zero and retargets the tail pointer, which here drops the absorbed
blocks and ends the list with a size-zero free tail. -/

structure EmLayoutBlock where
  size : Nat
  free : Bool
deriving DecidableEq, Repr

/-- `sizeof(Block)` (easy_memory.h:502): header word, prev pointer and a
two-pointer union — 32 bytes on a 64-bit platform. -/
def em_block_header_size : Nat := 32

/-- `merge_blocks_logic` (easy_memory.h:1571): the merged size is
`target.size + sizeof(Block) + source.size`. -/
def em_merge_size (a b : Nat) : Nat := a + em_block_header_size + b

/-- `em_free_block_full` (easy_memory.h:2011): mark the block free; if it (or
its physical successor) is the tail, reset the tail to size zero; otherwise
detach a free successor from the tree and merge; then detach and merge a free
predecessor the same way (absorbing into the tail when the merge already
reached it). -/
def em_free_block_full (before : List EmLayoutBlock) (x : EmLayoutBlock)
    (after : List EmLayoutBlock) : List EmLayoutBlock :=
  let step1 : Option (EmLayoutBlock × List EmLayoutBlock) :=
    match after with
    | [] => none
    | [_] => none
    | t :: rest =>
      if t.free then some (⟨em_merge_size x.size t.size, true⟩, rest)
      else some (⟨x.size, true⟩, t :: rest)
  match step1 with
  | none =>
    match before.getLast? with
    | some p =>
      if p.free then before.dropLast ++ [⟨0, true⟩]
      else before ++ [⟨0, true⟩]
    | none => before ++ [⟨0, true⟩]
  | some (m, suffix) =>
    match before.getLast? with
    | some p =>
      if p.free then
        before.dropLast ++ ⟨em_merge_size p.size m.size, true⟩ :: suffix
      else before ++ m :: suffix
    | none => before ++ m :: suffix

/-- Two physically adjacent blocks may not both be free. -/
def emAdjOk (a b : EmLayoutBlock) : Prop :=
  ¬(a.free = true ∧ b.free = true)

/-- No free block of a layout is physically adjacent to another free block. -/
def emNoAdjFree (l : List EmLayoutBlock) : Prop :=
  List.Chain' emAdjOk l

/-! ## socket.c — script-visible return-value protocol

Only the shape of what reaches the script matters here: the values a call
returns synchronously (`lua_push…; return n`) or the values pushed before the
completion callback resumes the coroutine.  Branch conditions (argument
checks, busy corefs, allocation and submission failures) are boolean
parameters of the embedding; message strings are the source's literals. -/

inductive LuaValue where
  | nil
  | str (s : String)
deriving DecidableEq, Repr

/-- Outcome of a script-visible call: synchronous return of values, or a
yield awaiting the completion callback. -/
inductive LuaCallOutcome where
  | ret (vals : List LuaValue)
  | yield
deriving DecidableEq, Repr

/-- `UV_EOF` (libuv). -/
def UV_EOF : Int := -4095

/-- `lunet_socket_write` (socket.c:803): every synchronous failure pushes a
single error string (`return 1`); a successful submission yields. -/
def lunet_socket_write (validHandle isString ctxClient busy allocReqOk
    allocBufOk uvOk : Bool) (uvErr : String) : LuaCallOutcome :=
  if !validHandle then .ret [.str "invalid socket handle"]
  else if !isString then .ret [.str "data must be a string"]
  else if !ctxClient then .ret [.str "invalid client socket handle"]
  else if busy then .ret [.str "another write already in progress"]
  else if !allocReqOk then .ret [.str "out of memory"]
  else if !allocBufOk then .ret [.str "out of memory"]
  else if !uvOk then .ret [.str ("failed to start writing: " ++ uvErr)]
  else .yield

/-- The values `lunet_write_cb` (socket.c:247) pushes before resuming the
writer with `nargs = 1`: `nil` on status 0, the error string otherwise. -/
def lunet_write_cb_resume (statusZero : Bool) (uvErr : String) : List LuaValue :=
  if statusZero then [.nil] else [.str uvErr]

/-- `lunet_socket_read` (socket.c:758): every synchronous failure pushes the
pair `(nil, error string)` (`return 2`); a successful `uv_read_start`
yields. -/
def lunet_socket_read (validHandle ctxClient busy uvOk : Bool)
    (uvErr : String) : LuaCallOutcome :=
  if !validHandle then .ret [.nil, .str "invalid socket handle"]
  else if !ctxClient then .ret [.nil, .str "invalid client socket handle"]
  else if busy then .ret [.nil, .str "another read already in progress"]
  else if !uvOk then .ret [.nil, .str ("failed to start reading: " ++ uvErr)]
  else .yield

/-- The values `lunet_read_cb` (socket.c:398-407) pushes before resuming the
reader with `nargs = 2`: `(bytes, nil)` on data, `(nil, nil)` on EOF,
`(nil, error string)` on error. -/
def lunet_read_cb_resume (nread : Int) (bytes uvErr : String) : List LuaValue :=
  if nread > 0 then [.str bytes, .nil]
  else if nread = UV_EOF then [.nil, .nil]
  else [.nil, .str uvErr]

end Lunet

/-! # Claim theorems -/

open Lunet

/-- C1: a coroutine started via `spawn` is present in the alive-set anchor
table iff its initial resume returned `LUA_YIELD` (the thread is fresh, hence
not previously anchored); and any resume through `co_resume` that returns a
status other than `LUA_YIELD` leaves the coroutine absent from the alive-set. -/
theorem spawn_anchors_iff_yield_and_co_resume_unanchors
    (tbl : Nat → Bool) (co : Nat) (status : ResumeStatus)
    (hfresh : tbl co = false) :
    (lunet_spawn tbl co status co = true ↔ status = ResumeStatus.yield) ∧
    (status ≠ ResumeStatus.yield → (lunet_co_resume tbl co status).1 co = false) := by
  constructor
  · constructor
    · intro h
      by_contra hs
      simp [lunet_spawn, hs, hfresh] at h
    · intro hs
      simp [lunet_spawn, hs, lunet_co_anchor]
  · intro hs
    simp [lunet_co_resume, hs, lunet_co_unanchor]

/-- Witness for C1: concrete instantiation (empty table, coroutine 5). -/
theorem spawn_anchors_iff_yield_and_co_resume_unanchors_witness :
    ((fun _ : Nat => false) 5 = false) ∧
    (lunet_spawn (fun _ => false) 5 ResumeStatus.yield 5 = true ↔
      ResumeStatus.yield = ResumeStatus.yield) ∧
    (ResumeStatus.ok ≠ ResumeStatus.yield →
      (lunet_co_resume (fun _ => false) 5 ResumeStatus.ok).1 5 = false) := by
  refine ⟨rfl, ?_, ?_⟩
  · exact (spawn_anchors_iff_yield_and_co_resume_unanchors
      (fun _ => false) 5 ResumeStatus.yield rfl).1
  · exact fun h => (spawn_anchors_iff_yield_and_co_resume_unanchors
      (fun _ => false) 5 ResumeStatus.ok rfl).2 h

/-! ### Bitmap flush lemmas (su.c) -/

theorem walkWaiters_fst (g : Nat) (l : List Nat) :
    (walkWaiters g l).1 = l.filter (fun t => decide (t ≤ g)) := by
  induction l with
  | nil => rfl
  | cons t rest ih =>
    by_cases h : t ≤ g <;> simp [walkWaiters, h, ih]

theorem walkWaiters_snd (g : Nat) (l : List Nat) :
    (walkWaiters g l).2 = l.filter (fun t => decide (g < t)) := by
  induction l with
  | nil => rfl
  | cons t rest ih =>
    by_cases h : t ≤ g
    · simp [walkWaiters, h, ih, Nat.not_lt.mpr h]
    · simp [walkWaiters, h, ih, Nat.lt_of_not_le h]

theorem erase_of_len_le_one {l : List Nat} {g : Nat}
    (hlen : l.length ≤ 1) (hmem : g ∈ l) : l.erase g = [] := by
  match l with
  | [] => cases hmem
  | [a] =>
    have : g = a := by simpa using hmem
    subst this; simp
  | a :: b :: rest => simp at hlen

theorem bmInv_enqueue (s : BmState) (lk : Bool) (h : BmInv s) :
    BmInv (su_bm_enqueue s lk) := by
  obtain ⟨hiff, hlen, hw⟩ := h
  by_cases hin : s.entry.inflight
  · refine ⟨by simpa [su_bm_enqueue, bm_start_flush, hin] using hiff, ?_, ?_⟩
    · simpa [su_bm_enqueue, bm_start_flush, hin] using hlen
    · intro t ht
      simp [su_bm_enqueue, bm_start_flush, hin] at ht ⊢
      rcases ht with ht | ht
      · exact Nat.le_succ_of_le (hw t ht)
      · exact Nat.le_of_eq ht
  · have hfl : s.flights = [] := by
      by_contra hne
      exact hin (hiff.mpr hne)
    cases lk with
    | true =>
      refine ⟨by simp [su_bm_enqueue, bm_start_flush, hin], ?_, ?_⟩
      · simp [su_bm_enqueue, bm_start_flush, hin, hfl]
      · intro t ht
        simp [su_bm_enqueue, bm_start_flush, hin] at ht ⊢
        rcases ht with ht | ht
        · exact Nat.le_succ_of_le (hw t ht)
        · exact Nat.le_of_eq ht
    | false =>
      refine ⟨?_, ?_, ?_⟩
      · simpa [su_bm_enqueue, bm_start_flush, hin] using hiff
      · simpa [su_bm_enqueue, bm_start_flush, hin] using hlen
      · intro t ht
        simp [su_bm_enqueue, bm_start_flush, hin] at ht ⊢
        exact Nat.le_succ_of_le (hw t ht)

theorem bmInv_writeDone (s : BmState) (g : Nat) (w f : Bool)
    (hok : g ∈ s.flights) (h : BmInv s) : BmInv (bm_flush_cb s g w f) := by
  obtain ⟨hiff, hlen, hw⟩ := h
  by_cases hwf : w = true ∧ f = true
  · simpa [bm_flush_cb, hwf] using ⟨hiff, hlen, hw⟩
  · have her : s.flights.erase g = [] := erase_of_len_le_one hlen hok
    refine ⟨?_, ?_, ?_⟩
    · simp [bm_flush_cb, hwf, her]
    · simp [bm_flush_cb, hwf, her]
    · intro t ht
      simp [bm_flush_cb, hwf, walkWaiters_snd, List.mem_filter] at ht ⊢
      exact hw t ht.1

theorem start_flush_resumedOk (s : BmState) (lk : Bool) :
    ((bm_start_flush s lk).1).resumedOk = s.resumedOk := by
  unfold bm_start_flush
  by_cases hin : s.entry.inflight = true <;> by_cases hlk : lk = true <;>
    simp [hin, hlk]

theorem start_flush_waiters (s : BmState) (lk : Bool) :
    ((bm_start_flush s lk).1).entry.waiters = s.entry.waiters := by
  unfold bm_start_flush
  by_cases hin : s.entry.inflight = true <;> by_cases hlk : lk = true <;>
    simp [hin, hlk]

theorem start_flush_gen (s : BmState) (lk : Bool) :
    ((bm_start_flush s lk).1).entry.gen = s.entry.gen := by
  unfold bm_start_flush
  by_cases hin : s.entry.inflight = true <;> by_cases hlk : lk = true <;>
    simp [hin, hlk]

theorem start_flush_inv (s : BmState) (lk : Bool) (h : BmInv s) :
    BmInv ((bm_start_flush s lk).1) := by
  obtain ⟨hiff, hlen, hw⟩ := h
  unfold bm_start_flush
  by_cases hin : s.entry.inflight = true <;> by_cases hlk : lk = true <;>
    simp only [hin, hlk, if_true, if_false, Bool.false_eq_true, ite_true,
      ite_false, Bool.not_eq_true] <;>
    first
      | exact ⟨hiff, hlen, hw⟩
      | (refine ⟨by simp, ?_, hw⟩
         have hfl : s.flights = [] := by
           by_contra hne
           simp [hiff.mpr hne] at hin
         simp [hfl])

theorem bmInv_fsyncDone (s : BmState) (g : Nat) (fo lk : Bool)
    (hok : g ∈ s.flights) (h : BmInv s) : BmInv (bm_fsync_cb s g fo lk) := by
  obtain ⟨hiff, hlen, hw⟩ := h
  have her : s.flights.erase g = [] := erase_of_len_le_one hlen hok
  have hkeep : ∀ t ∈ (walkWaiters g s.entry.waiters).2, t ≤ s.entry.gen := by
    intro t ht
    rw [walkWaiters_snd] at ht
    exact hw t (List.mem_filter.mp ht).1
  have hbase : BmInv
      { entry := { gen := s.entry.gen, inflight := false,
                   waiters := (walkWaiters g s.entry.waiters).2 },
        flights := s.flights.erase g,
        resumedOk := if fo = true then
            s.resumedOk ++ (walkWaiters g s.entry.waiters).1 else s.resumedOk,
        resumedErr := if fo = true then
            s.resumedErr else s.resumedErr ++ (walkWaiters g s.entry.waiters).1 } := by
    exact ⟨by simp [her], by simp [her], hkeep⟩
  unfold bm_fsync_cb
  cases fo <;>
    simp only [Bool.false_eq_true, ite_false, ite_true, if_false, if_true] <;>
    split <;>
    first
      | (apply start_flush_inv
         simpa using hbase)
      | simpa using hbase

theorem resumedOk_enqueue (s : BmState) (lk : Bool) :
    (su_bm_enqueue s lk).resumedOk = s.resumedOk := by
  unfold su_bm_enqueue bm_start_flush
  by_cases hin : s.entry.inflight = true <;> by_cases hlk : lk = true <;>
    simp [hin, hlk]

theorem resumedOk_writeDone (s : BmState) (g : Nat) (w f : Bool) :
    (bm_flush_cb s g w f).resumedOk = s.resumedOk := by
  unfold bm_flush_cb
  by_cases hwf : w = true ∧ f = true <;> simp [hwf]

theorem resumedOk_fsync_cb (s : BmState) (g : Nat) (fo lk : Bool) :
    (bm_fsync_cb s g fo lk).resumedOk =
      if fo = true then s.resumedOk ++ (walkWaiters g s.entry.waiters).1
      else s.resumedOk := by
  unfold bm_fsync_cb
  cases fo <;>
    simp only [Bool.false_eq_true, ite_false, ite_true, if_false, if_true] <;>
    split <;> simp [start_flush_resumedOk]

theorem start_flush_resumedErr (s : BmState) (lk : Bool) :
    ((bm_start_flush s lk).1).resumedErr = s.resumedErr := by
  unfold bm_start_flush
  by_cases hin : s.entry.inflight = true <;> by_cases hlk : lk = true <;>
    simp [hin, hlk]

theorem resumedErr_fsync_cb (s : BmState) (g : Nat) (fo lk : Bool) :
    (bm_fsync_cb s g fo lk).resumedErr =
      if fo = true then s.resumedErr
      else s.resumedErr ++ (walkWaiters g s.entry.waiters).1 := by
  unfold bm_fsync_cb
  cases fo <;>
    simp only [Bool.false_eq_true, ite_false, ite_true, if_false, if_true] <;>
    split <;> simp [start_flush_resumedErr]

theorem waiters_fsync_cb (s : BmState) (g : Nat) (fo lk : Bool) :
    (bm_fsync_cb s g fo lk).entry.waiters = (walkWaiters g s.entry.waiters).2 := by
  unfold bm_fsync_cb
  cases fo <;>
    simp only [Bool.false_eq_true, ite_false, ite_true, if_false, if_true] <;>
    split <;> simp [start_flush_waiters]

theorem fsync_cb_restart (s : BmState) (g : Nat) (fo : Bool)
    (hne : (walkWaiters g s.entry.waiters).2 ≠ []) (hg : s.entry.gen > g) :
    (bm_fsync_cb s g fo true).entry.inflight = true := by
  unfold bm_fsync_cb
  cases fo <;> simp [hne, hg, bm_start_flush]

theorem resumedOk_fsyncDone (s : BmState) (g : Nat) (fo lk : Bool) (t : Nat)
    (ht : t ∈ (bm_fsync_cb s g fo lk).resumedOk) :
    t ∈ s.resumedOk ∨ (fo = true ∧ t ≤ g) := by
  rw [resumedOk_fsync_cb] at ht
  cases fo with
  | true =>
    simp only [ite_true, if_true] at ht
    rcases List.mem_append.mp ht with hmem | hmem
    · exact Or.inl hmem
    · right
      rw [walkWaiters_fst] at hmem
      exact ⟨rfl, by simpa using (List.mem_filter.mp hmem).2⟩
  | false =>
    left
    simpa using ht

/-- C2: each bitmap byte has at most one in-flight flush — `bm_start_flush`
while a flush is in flight is a no-op, and every event preserves the
invariant that at most one flush context is live (and the in-flight flag
mirrors it) — and a waiter is logged as resumed-with-success only by the
completion of a bitmap fsync whose flush generation is at least the waiter's
target generation. -/
theorem bm_flush_serialised_and_durable :
    (∀ (s : BmState) (lk : Bool), s.entry.inflight = true →
      bm_start_flush s lk = (s, 0)) ∧
    (∀ (s : BmState) (e : BmEvent), bmEventOk s e → BmInv s →
      BmInv (bmStep s e)) ∧
    (∀ (s : BmState) (e : BmEvent) (t : Nat), t ∈ (bmStep s e).resumedOk →
      t ∈ s.resumedOk ∨ ∃ g lk, e = BmEvent.fsyncDone g true lk ∧ t ≤ g) := by
  refine ⟨?_, ?_, ?_⟩
  · intro s lk h
    simp [bm_start_flush, h]
  · intro s e hok hinv
    cases e with
    | enqueue lk => exact bmInv_enqueue s lk hinv
    | writeDone g w f => exact bmInv_writeDone s g w f hok hinv
    | fsyncDone g fo lk => exact bmInv_fsyncDone s g fo lk hok hinv
  · intro s e t ht
    cases e with
    | enqueue lk =>
      rw [bmStep, resumedOk_enqueue] at ht
      exact Or.inl ht
    | writeDone g w f =>
      rw [bmStep, resumedOk_writeDone] at ht
      exact Or.inl ht
    | fsyncDone g fo lk =>
      rcases resumedOk_fsyncDone s g fo lk t ht with hmem | ⟨hfo, hle⟩
      · exact Or.inl hmem
      · subst hfo
        exact Or.inr ⟨g, lk, rfl, hle⟩

/-- Witness for C2: concrete state with one live flush (generation 1) and one
waiter; completing the fsync preserves the invariant and resumes the waiter. -/
theorem bm_flush_serialised_and_durable_witness :
    bm_start_flush ⟨⟨1, true, [1]⟩, [1], [], []⟩ true =
      (⟨⟨1, true, [1]⟩, [1], [], []⟩, 0) ∧
    BmInv (bmStep ⟨⟨1, true, [1]⟩, [1], [], []⟩ (BmEvent.fsyncDone 1 true true)) ∧
    (1 ∈ (bmStep ⟨⟨1, true, [1]⟩, [1], [], []⟩
        (BmEvent.fsyncDone 1 true true)).resumedOk →
      1 ∈ ([] : List Nat) ∨
        ∃ g lk, BmEvent.fsyncDone 1 true true = BmEvent.fsyncDone g true lk ∧ 1 ≤ g) := by
  refine ⟨?_, ?_, ?_⟩
  · exact bm_flush_serialised_and_durable.1 ⟨⟨1, true, [1]⟩, [1], [], []⟩ true rfl
  · exact bm_flush_serialised_and_durable.2.1 ⟨⟨1, true, [1]⟩, [1], [], []⟩
      (BmEvent.fsyncDone 1 true true)
      (by show (1 : Nat) ∈ [1]; decide)
      (by refine ⟨by decide, by decide, ?_⟩; decide)
  · exact bm_flush_serialised_and_durable.2.2 ⟨⟨1, true, [1]⟩, [1], [], []⟩
      (BmEvent.fsyncDone 1 true true) 1

/-- Counterexample for C3 as stated: when the bitmap *write* fails
(`bm_flush_cb` error path) the waiter with target generation 2 remains queued
but no subsequent flush is started — the in-flight flag is false and no flush
context is live, contradicting "a subsequent flush is started to retry them". -/
theorem bm_write_failure_no_restart_cex :
    (bm_flush_cb ⟨⟨2, true, [1, 2]⟩, [1], [], []⟩ 1 false true).entry.waiters = [2] ∧
    (bm_flush_cb ⟨⟨2, true, [1, 2]⟩, [1], [], []⟩ 1 false true).resumedErr = [1] ∧
    (bm_flush_cb ⟨⟨2, true, [1, 2]⟩, [1], [], []⟩ 1 false true).entry.inflight = false ∧
    (bm_flush_cb ⟨⟨2, true, [1, 2]⟩, [1], [], []⟩ 1 false true).flights = [] := by
  decide

/-- C3 (amended): on any failure of a bitmap flush step, exactly the waiters
with `target_gen ≤ flush_gen` are resumed with the error and higher-generation
waiters remain queued; after a failed bitmap *fsync completion* a subsequent
flush is started to retry them (when any remain and its submission succeeds),
while after a failed bitmap *write* (or a failed fsync submission) the
callback starts no new flush. -/
theorem bm_flush_step_failure (s : BmState) (g : Nat) :
    (∀ w f, ¬(w = true ∧ f = true) →
      (bm_flush_cb s g w f).resumedErr =
        s.resumedErr ++ s.entry.waiters.filter (fun t => decide (t ≤ g)) ∧
      (bm_flush_cb s g w f).entry.waiters =
        s.entry.waiters.filter (fun t => decide (g < t)) ∧
      (bm_flush_cb s g w f).entry.inflight = false ∧
      (bm_flush_cb s g w f).flights = s.flights.erase g) ∧
    (∀ lk,
      (bm_fsync_cb s g false lk).resumedErr =
        s.resumedErr ++ s.entry.waiters.filter (fun t => decide (t ≤ g)) ∧
      (bm_fsync_cb s g false lk).entry.waiters =
        s.entry.waiters.filter (fun t => decide (g < t)) ∧
      ((∀ t ∈ s.entry.waiters, t ≤ s.entry.gen) →
        s.entry.waiters.filter (fun t => decide (g < t)) ≠ [] →
        (bm_fsync_cb s g false true).entry.inflight = true)) := by
  constructor
  · intro w f hwf
    refine ⟨?_, ?_, ?_, ?_⟩ <;>
      simp [bm_flush_cb, hwf, walkWaiters_fst, walkWaiters_snd]
  · intro lk
    have hgt : s.entry.waiters.filter (fun t => decide (g < t)) ≠ [] →
        (∀ t ∈ s.entry.waiters, t ≤ s.entry.gen) → s.entry.gen > g := by
      intro hne hbound
      rcases List.exists_mem_of_ne_nil _ hne with ⟨t, ht⟩
      have h1 : g < t := by simpa using (List.mem_filter.mp ht).2
      have h2 : t ≤ s.entry.gen := hbound t (List.mem_filter.mp ht).1
      omega
    refine ⟨?_, ?_, ?_⟩
    · rw [resumedErr_fsync_cb]
      simp [walkWaiters_fst]
    · rw [waiters_fsync_cb, walkWaiters_snd]
    · intro hbound hne
      have hg : s.entry.gen > g := hgt hne hbound
      exact fsync_cb_restart s g false
        (by rw [walkWaiters_snd]; exact hne) hg

/-- Witness for C3: concrete state, write failure with waiters `[1, 2]` at
flush generation 1, and fsync failure restarting a flush for waiter 2. -/
theorem bm_flush_step_failure_witness :
    ¬(false = true ∧ true = true) ∧
    (bm_flush_cb ⟨⟨2, true, [1, 2]⟩, [1], [], []⟩ 1 false true).resumedErr =
      [] ++ [1, 2].filter (fun t => decide (t ≤ 1)) ∧
    (bm_fsync_cb ⟨⟨2, true, [1, 2]⟩, [1], [], []⟩ 1 false true).entry.inflight = true := by
  refine ⟨by simp, ?_, ?_⟩
  · exact ((bm_flush_step_failure ⟨⟨2, true, [1, 2]⟩, [1], [], []⟩ 1).1
      false true (by simp)).1
  · exact ((bm_flush_step_failure ⟨⟨2, true, [1, 2]⟩, [1], [], []⟩ 1).2
      true).2.2 (by decide) (by decide)

/-! ### PAXE decoder (paxe.c) -/

/-- C4: the PAXE decoder's parse phase — a buffer shorter than 36 bytes is
rejected as "packet too short"; otherwise a nonzero reserved byte is rejected;
otherwise DEK mode is selected exactly when flags bit 0 is set and the frame
is rejected as a length mismatch unless `len = declared_len + 36` (standard)
resp. `+ 82` (DEK); otherwise the frame is rejected when the key id is absent
from the keystore.  Each rejection bumps the matching counter (and the
unconditional `rx_total`). -/
theorem paxe_try_decrypt_parse (ks : Keystore) (buf : List Nat) (st : paxe_stats_t) :
    (buf.length < 36 →
      paxe_try_decrypt ks buf st =
        (Except.error PaxeFailReason.packetTooShort,
         { st with rx_total := st.rx_total + 1, rx_short := st.rx_short + 1 })) ∧
    (36 ≤ buf.length → buf.getD 3 0 ≠ 0 →
      paxe_try_decrypt ks buf st =
        (Except.error PaxeFailReason.reservedNonzero,
         { st with rx_total := st.rx_total + 1,
                   rx_reserved_nonzero := st.rx_reserved_nonzero + 1 })) ∧
    (36 ≤ buf.length → buf.getD 3 0 = 0 →
      buf.length ≠ read_u16be buf + (if buf.getD 2 0 &&& 1 ≠ 0 then 82 else 36) →
      paxe_try_decrypt ks buf st =
        (Except.error PaxeFailReason.lengthMismatch,
         { st with rx_total := st.rx_total + 1,
                   rx_len_mismatch := st.rx_len_mismatch + 1 })) ∧
    (36 ≤ buf.length → buf.getD 3 0 = 0 →
      buf.length = read_u16be buf + (if buf.getD 2 0 &&& 1 ≠ 0 then 82 else 36) →
      keystore_get ks (read_u32be (buf.drop 4)) = none →
      paxe_try_decrypt ks buf st =
        (Except.error PaxeFailReason.keyNotFound,
         { st with rx_total := st.rx_total + 1,
                   rx_no_key := st.rx_no_key + 1 })) := by
  have hc : HEADER_LEN + NONCE_LEN + TAG_LEN = 36 := rfl
  refine ⟨?_, ?_, ?_, ?_⟩
  · intro h
    simp only [paxe_try_decrypt]
    rw [if_pos (by rw [hc]; exact h)]
    simp [paxe_fail_counter]
  · intro h h2
    simp only [paxe_try_decrypt]
    rw [if_neg (by rw [hc]; omega), if_pos h2]
    simp [paxe_fail_counter]
  · intro h h2 h3
    have h3' : buf.length ≠ read_u16be buf +
        (if buf.getD 2 0 &&& FLAG_DEK_MODE ≠ 0 then OVERHEAD_DEK else OVERHEAD_STD) := by
      simp only [FLAG_DEK_MODE, OVERHEAD_DEK, OVERHEAD_STD]
      exact h3
    simp only [paxe_try_decrypt]
    rw [if_neg (by rw [hc]; omega), if_neg (not_not_intro h2), if_pos h3']
    simp [paxe_fail_counter]
  · intro h h2 h3 hk
    have h3' : ¬(buf.length ≠ read_u16be buf +
        (if buf.getD 2 0 &&& FLAG_DEK_MODE ≠ 0 then OVERHEAD_DEK else OVERHEAD_STD)) := by
      simp only [FLAG_DEK_MODE, OVERHEAD_DEK, OVERHEAD_STD]
      exact not_not_intro h3
    simp only [paxe_try_decrypt]
    rw [if_neg (by rw [hc]; omega), if_neg (not_not_intro h2), if_neg h3', hk]
    simp [paxe_fail_counter]

/-- Witness for C4: the four rejection classes at concrete frames (empty
keystore, zeroed counters). -/
theorem paxe_try_decrypt_parse_witness :
    paxe_try_decrypt (fun _ => ⟨0, [], false⟩) [] ⟨0, 0, 0, 0, 0, 0, 0⟩ =
      (Except.error PaxeFailReason.packetTooShort, ⟨1, 0, 1, 0, 0, 0, 0⟩) ∧
    paxe_try_decrypt (fun _ => ⟨0, [], false⟩)
        ([0, 0, 0, 1] ++ List.replicate 32 0) ⟨0, 0, 0, 0, 0, 0, 0⟩ =
      (Except.error PaxeFailReason.reservedNonzero, ⟨1, 0, 0, 0, 0, 0, 1⟩) ∧
    paxe_try_decrypt (fun _ => ⟨0, [], false⟩)
        ([0, 5, 0, 0] ++ List.replicate 32 0) ⟨0, 0, 0, 0, 0, 0, 0⟩ =
      (Except.error PaxeFailReason.lengthMismatch, ⟨1, 0, 0, 1, 0, 0, 0⟩) ∧
    paxe_try_decrypt (fun _ => ⟨0, [], false⟩)
        ([0, 0, 0, 0] ++ List.replicate 32 0) ⟨0, 0, 0, 0, 0, 0, 0⟩ =
      (Except.error PaxeFailReason.keyNotFound, ⟨1, 0, 0, 0, 1, 0, 0⟩) := by
  refine ⟨?_, ?_, ?_, ?_⟩
  · exact (paxe_try_decrypt_parse (fun _ => ⟨0, [], false⟩) []
      ⟨0, 0, 0, 0, 0, 0, 0⟩).1 (by decide)
  · exact (paxe_try_decrypt_parse (fun _ => ⟨0, [], false⟩)
      ([0, 0, 0, 1] ++ List.replicate 32 0) ⟨0, 0, 0, 0, 0, 0, 0⟩).2.1
      (by decide) (by decide)
  · exact (paxe_try_decrypt_parse (fun _ => ⟨0, [], false⟩)
      ([0, 5, 0, 0] ++ List.replicate 32 0) ⟨0, 0, 0, 0, 0, 0, 0⟩).2.2.1
      (by decide) (by decide) (by decide)
  · exact (paxe_try_decrypt_parse (fun _ => ⟨0, [], false⟩)
      ([0, 0, 0, 0] ++ List.replicate 32 0) ⟨0, 0, 0, 0, 0, 0, 0⟩).2.2.2
      (by decide) (by decide) (by decide) (by decide)

theorem nat_and_255 (x : Nat) : x &&& 255 = x % 256 := by
  have h := Nat.and_pow_two_sub_one_eq_mod x 8
  norm_num at h
  exact h

theorem gcmTag_length (key nonce aad msg : List Nat) :
    (gcmTag key nonce aad msg).length = 16 := by
  simp [gcmTag, TAG_LEN]

theorem paxe_reject_length_mismatch (ks : Keystore) (buf : List Nat)
    (st : paxe_stats_t)
    (h36 : ¬(buf.length < HEADER_LEN + NONCE_LEN + TAG_LEN))
    (hres : buf.getD 3 0 = 0)
    (hmis : buf.length ≠ read_u16be buf +
      (if buf.getD 2 0 &&& FLAG_DEK_MODE ≠ 0 then OVERHEAD_DEK else OVERHEAD_STD)) :
    (paxe_try_decrypt ks buf st).1 = Except.error PaxeFailReason.lengthMismatch := by
  simp only [paxe_try_decrypt]
  rw [if_neg h36, if_neg (not_not_intro hres), if_pos hmis]

/-- Counterexample for C5 as stated: the claim quantifies over *every*
plaintext, but `l_paxe_encrypt` truncates the length to 16 bits
(paxe.c:520-521), so a 65536-byte plaintext produces a frame whose declared
length is 0 and `try_decrypt` rejects it as a length mismatch instead of
succeeding.  The second conjunct shows a successful small round trip also
bumps `rx_total` (paxe.c:201), so `rx_ok` is not the only counter that
changes. -/
theorem paxe_roundtrip_as_stated_cex :
    (l_paxe_encrypt (fun i => if i = 7 then ⟨7, List.replicate 32 0, true⟩ else ⟨0, [], false⟩)
        (List.replicate 65536 0) 7 (List.replicate 12 0)).map
      (fun buf =>
        (paxe_try_decrypt
          (fun i => if i = 7 then ⟨7, List.replicate 32 0, true⟩ else ⟨0, [], false⟩)
          buf ⟨0, 0, 0, 0, 0, 0, 0⟩).1) =
      some (Except.error PaxeFailReason.lengthMismatch) ∧
    (l_paxe_encrypt (fun i => if i = 7 then ⟨7, List.replicate 32 0, true⟩ else ⟨0, [], false⟩)
        [1, 2, 3] 7 (List.replicate 12 0)).map
      (fun buf =>
        (paxe_try_decrypt
          (fun i => if i = 7 then ⟨7, List.replicate 32 0, true⟩ else ⟨0, [], false⟩)
          buf ⟨0, 0, 0, 0, 0, 0, 0⟩).2.rx_total) = some 1 := by
  constructor
  · have hks : keystore_get
        (fun i => if i = 7 then ⟨7, List.replicate 32 0, true⟩ else ⟨0, [], false⟩) 7 =
        some (List.replicate 32 0) := by decide
    have henc : l_paxe_encrypt
        (fun i => if i = 7 then ⟨7, List.replicate 32 0, true⟩ else ⟨0, [], false⟩)
        (List.replicate 65536 0) 7 (List.replicate 12 0) =
        some (paxe_header 65536 7 ++ List.replicate 12 0 ++
          gcm_encrypt (List.replicate 65536 0) (paxe_header 65536 7)
            (List.replicate 12 0) (List.replicate 32 0)) := by
      simp only [l_paxe_encrypt, hks, List.length_replicate]
    have hlen : (paxe_header 65536 7 ++ List.replicate 12 0 ++
        gcm_encrypt (List.replicate 65536 0) (paxe_header 65536 7)
          (List.replicate 12 0) (List.replicate 32 0)).length = 65572 := by
      simp only [gcm_encrypt, gcmTag_length, List.length_append,
        List.length_replicate, paxe_header, List.length_cons, List.length_nil]
    have hrej : (paxe_try_decrypt
        (fun i => if i = 7 then ⟨7, List.replicate 32 0, true⟩ else ⟨0, [], false⟩)
        (paxe_header 65536 7 ++ List.replicate 12 0 ++
          gcm_encrypt (List.replicate 65536 0) (paxe_header 65536 7)
            (List.replicate 12 0) (List.replicate 32 0))
        ⟨0, 0, 0, 0, 0, 0, 0⟩).1 = Except.error PaxeFailReason.lengthMismatch := by
      apply paxe_reject_length_mismatch
      · rw [hlen]
        decide
      · rfl
      · rw [hlen]
        have hu16 : read_u16be (paxe_header 65536 7 ++ List.replicate 12 0 ++
            gcm_encrypt (List.replicate 65536 0) (paxe_header 65536 7)
              (List.replicate 12 0) (List.replicate 32 0)) = 0 := rfl
        rw [hu16]
        have hfl : (paxe_header 65536 7 ++ List.replicate 12 0 ++
            gcm_encrypt (List.replicate 65536 0) (paxe_header 65536 7)
              (List.replicate 12 0) (List.replicate 32 0)).getD 2 0 = 0 := rfl
        rw [hfl]
        decide
    rw [henc, Option.map_some']
    exact congrArg some hrej
  · decide

/-- C5 (amended): for every plaintext of fewer than 2^16 bytes and every
32-bit key id present in the keystore, standard-mode encryption followed by
`try_decrypt` succeeds, recovers exactly the original plaintext, reports the
same key id with zero flags, and changes no counter except the unconditional
`rx_total` and `rx_ok`, both bumped by one. -/
theorem paxe_roundtrip_standard (ks : Keystore) (pt nonce key : List Nat)
    (kid : Nat) (st : paxe_stats_t)
    (hks : keystore_get ks kid = some key)
    (hpt : pt.length < 65536) (hkid : kid < 4294967296)
    (hn : nonce.length = 12) :
    ∃ buf, l_paxe_encrypt ks pt kid nonce = some buf ∧
      paxe_try_decrypt ks buf st =
        (Except.ok (pt, kid, 0),
         { st with rx_total := st.rx_total + 1, rx_ok := st.rx_ok + 1 }) := by
  refine ⟨paxe_header pt.length kid ++ nonce ++
    gcm_encrypt pt (paxe_header pt.length kid) nonce key, ?_, ?_⟩
  · simp only [l_paxe_encrypt, hks]
  · set tag := gcmTag key nonce (paxe_header pt.length kid) pt with htagdef
    set buf := paxe_header pt.length kid ++ nonce ++
      gcm_encrypt pt (paxe_header pt.length kid) nonce key with hbufdef
    have htl : tag.length = 16 := by rw [htagdef]; exact gcmTag_length _ _ _ _
    have hbuflen : buf.length = pt.length + 36 := by
      rw [hbufdef]
      simp [paxe_header, gcm_encrypt, hn, gcmTag_length]
      omega
    have hdecl : read_u16be buf = pt.length := by
      have h0 : read_u16be buf =
          ((pt.length >>> 8) &&& 255) * 256 + (pt.length &&& 255) := rfl
      rw [h0, Nat.shiftRight_eq_div_pow, nat_and_255, nat_and_255]
      norm_num
      omega
    have hkid' : read_u32be (buf.drop 4) = kid := by
      have h0 : read_u32be (buf.drop 4) =
          ((kid >>> 24) &&& 255) * 16777216 + ((kid >>> 16) &&& 255) * 65536 +
          ((kid >>> 8) &&& 255) * 256 + (kid &&& 255) := rfl
      rw [h0, Nat.shiftRight_eq_div_pow, Nat.shiftRight_eq_div_pow,
        Nat.shiftRight_eq_div_pow, nat_and_255, nat_and_255, nat_and_255, nat_and_255]
      norm_num
      omega
    have hres0 : buf.getD 3 0 = 0 := rfl
    have hflags0 : buf.getD 2 0 = 0 := rfl
    have hdrop8 : buf.drop HEADER_LEN = nonce ++ (pt ++ tag) := rfl
    have htake8 : buf.take HEADER_LEN = paxe_header pt.length kid := rfl
    have hdrop20 : buf.drop (HEADER_LEN + NONCE_LEN) = List.drop 12 (nonce ++ (pt ++ tag)) := rfl
    have hct : buf.drop (HEADER_LEN + NONCE_LEN) = pt ++ tag := by
      rw [hdrop20, ← hn, List.drop_left]
    have hnon : (buf.drop HEADER_LEN).take NONCE_LEN = nonce := by
      rw [hdrop8]
      show (nonce ++ (pt ++ tag)).take 12 = nonce
      rw [← hn, List.take_left]
    have hdec : gcm_decrypt (pt ++ tag) (paxe_header pt.length kid) nonce key = some pt := by
      unfold gcm_decrypt
      have hptl : (pt ++ tag).length = pt.length + 16 := by simp [htl]
      rw [if_pos (by rw [hptl]; show (16 : Nat) ≤ pt.length + 16; omega)]
      have hsub : (pt ++ tag).length - TAG_LEN = pt.length := by
        rw [hptl]; rfl
      rw [hsub]
      have htk : (pt ++ tag).take pt.length = pt := List.take_left pt tag
      have hdr : (pt ++ tag).drop pt.length = tag := List.drop_left pt tag
      rw [htk, hdr, if_pos htagdef]
    simp only [paxe_try_decrypt]
    rw [hdecl, hflags0, hkid']
    rw [if_neg (by rw [hbuflen]; show ¬(pt.length + 36 < 36); omega)]
    rw [if_neg (not_not_intro hres0)]
    rw [if_neg (by
      rw [hbuflen]
      show ¬(pt.length + 36 ≠ pt.length +
        (if 0 &&& FLAG_DEK_MODE ≠ 0 then OVERHEAD_DEK else OVERHEAD_STD))
      norm_num [FLAG_DEK_MODE, OVERHEAD_STD])]
    rw [hks]
    simp only [hct, htake8, hnon]
    simp [hdec, FLAG_DEK_MODE]

/-- Witness for C5: a 3-byte plaintext, key id 7, and a singleton keystore. -/
theorem paxe_roundtrip_standard_witness :
    keystore_get (fun i => if i = 7 then ⟨7, List.replicate 32 0, true⟩ else ⟨0, [], false⟩) 7 =
      some (List.replicate 32 0) ∧
    (∃ buf, l_paxe_encrypt
        (fun i => if i = 7 then ⟨7, List.replicate 32 0, true⟩ else ⟨0, [], false⟩)
        [1, 2, 3] 7 (List.replicate 12 0) = some buf ∧
      paxe_try_decrypt
          (fun i => if i = 7 then ⟨7, List.replicate 32 0, true⟩ else ⟨0, [], false⟩)
          buf ⟨0, 0, 0, 0, 0, 0, 0⟩ =
        (Except.ok ([1, 2, 3], 7, 0), ⟨1, 1, 0, 0, 0, 0, 0⟩)) := by
  refine ⟨by decide, ?_⟩
  exact paxe_roundtrip_standard
    (fun i => if i = 7 then ⟨7, List.replicate 32 0, true⟩ else ⟨0, [], false⟩)
    [1, 2, 3] (List.replicate 12 0) (List.replicate 32 0) 7 ⟨0, 0, 0, 0, 0, 0, 0⟩
    (by decide) (by decide) (by decide) (by decide)

/-! ### Canary-tier free (lunet_mem.c) -/

/-- C6: a canary mismatch skips the free — no counter changes, nothing is
handed to the backing allocator — and reports a double free exactly when the
canary word equals four poison bytes 0xDE; a valid canary applies the
accounting for the stored size (free count +1, freed bytes +size, current
bytes −size) and overwrites the entire header plus user region with the
poison byte 0xDE before the memory is returned. -/
theorem lunet_mem_free_canary_policy (header : lunet_mem_header_t)
    (st : lunet_mem_state_t) :
    (header.canary ≠ LUNET_MEM_CANARY →
      (lunet_mem_free_impl header st).2.1 = st ∧
      (lunet_mem_free_impl header st).2.2 = none ∧
      ((lunet_mem_free_impl header st).1 = FreeReport.doubleFree ↔
        header.canary = lunet_mem_poison_word)) ∧
    (header.canary = LUNET_MEM_CANARY →
      (lunet_mem_free_impl header st).1 = FreeReport.freed ∧
      (lunet_mem_free_impl header st).2.1 =
        { st with free_count := st.free_count + 1,
                  free_bytes := st.free_bytes + (header.size : Int),
                  current_bytes := st.current_bytes - (header.size : Int) } ∧
      (lunet_mem_free_impl header st).2.2 =
        some (List.replicate (8 + header.size) LUNET_MEM_POISON)) := by
  constructor
  · intro h
    refine ⟨by simp [lunet_mem_free_impl, h], by simp [lunet_mem_free_impl, h], ?_⟩
    simp only [lunet_mem_free_impl]
    rw [if_pos h]
    by_cases hp : header.canary = lunet_mem_poison_word <;> simp [hp]
  · intro h
    refine ⟨?_, ?_, ?_⟩ <;> simp [lunet_mem_free_impl, h]

/-- Witness for C6: a poisoned header (double free), a corrupt header, and a
valid 5-byte allocation. -/
theorem lunet_mem_free_canary_policy_witness :
    ((lunet_mem_free_impl ⟨0xDEDEDEDE, 5⟩ ⟨1, 0, 5, 0, 5, 5⟩).2.1 = ⟨1, 0, 5, 0, 5, 5⟩ ∧
      (lunet_mem_free_impl ⟨0xDEDEDEDE, 5⟩ ⟨1, 0, 5, 0, 5, 5⟩).1 = FreeReport.doubleFree) ∧
    (lunet_mem_free_impl ⟨0xBAD, 5⟩ ⟨1, 0, 5, 0, 5, 5⟩).1 = FreeReport.canaryFail ∧
    (lunet_mem_free_impl ⟨0x4C554E45, 5⟩ ⟨1, 0, 5, 0, 5, 5⟩).2.2 =
      some (List.replicate 13 0xDE) := by
  refine ⟨⟨?_, ?_⟩, ?_, ?_⟩
  · exact ((lunet_mem_free_canary_policy ⟨0xDEDEDEDE, 5⟩ ⟨1, 0, 5, 0, 5, 5⟩).1
      (by decide)).1
  · exact ((lunet_mem_free_canary_policy ⟨0xDEDEDEDE, 5⟩ ⟨1, 0, 5, 0, 5, 5⟩).1
      (by decide)).2.2.mpr (by decide)
  · by_cases hp : (0xBAD : Nat) = lunet_mem_poison_word
    · exact absurd hp (by decide)
    · have h := ((lunet_mem_free_canary_policy ⟨0xBAD, 5⟩ ⟨1, 0, 5, 0, 5, 5⟩).1
        (by decide)).2.2
      rcases hr : (lunet_mem_free_impl ⟨0xBAD, 5⟩ ⟨1, 0, 5, 0, 5, 5⟩).1 with _ | _ | _
      · exact absurd hr (by decide)
      · exact absurd (h.mp hr) (by decide)
      · rfl
  · exact ((lunet_mem_free_canary_policy ⟨0x4C554E45, 5⟩ ⟨1, 0, 5, 0, 5, 5⟩).2
      (by decide)).2.2

/-! ### Arena best-fit search (easy_memory.h) -/

theorem find_best_fit_sound (t : EmTree) (size alignment : Nat)
    (best : Option EmBlock)
    (hbest : ∀ bb, best = some bb → em_accommodates bb size alignment) :
    ∀ b, find_best_fit t size alignment best = some b →
      em_accommodates b size alignment := by
  induction t generalizing best with
  | leaf =>
    intro b hb
    exact hbest b hb
  | node l bl r ihl ihr =>
    intro b hb
    by_cases h1 : bl.bsize < size
    · simp only [find_best_fit] at hb
      rw [if_pos h1] at hb
      exact ihr best hbest b hb
    · by_cases h2 : size + em_padding bl alignment ≤ bl.bsize
      · simp only [find_best_fit] at hb
        rw [if_neg h1, if_pos h2] at hb
        refine ihl _ ?_ b hb
        intro bb hbb
        cases best with
        | none =>
          have hbb' : some bl = some bb := hbb
          cases hbb'
          exact h2
        | some bprev =>
          have hbb' : (if bl.bsize < bprev.bsize then some bl else some bprev) =
              some bb := hbb
          by_cases hlt : bl.bsize < bprev.bsize
          · rw [if_pos hlt] at hbb'
            cases hbb'
            exact h2
          · rw [if_neg hlt] at hbb'
            cases hbb'
            exact hbest bb rfl
      · simp only [find_best_fit] at hb
        rw [if_neg h1, if_neg h2] at hb
        exact ihr best hbest b hb

/-- C7: the best-fit descent — a block smaller than the request sends the
search right; a block large enough by size but overrun by its alignment
padding also sends it right; a block accommodating size plus padding is
recorded as best-so-far (replacing the previous best only when strictly
smaller) and the search goes left; and a returned block always accommodates
the requested size plus its own alignment padding. -/
theorem find_best_fit_descent :
    (∀ (l r : EmTree) (b : EmBlock) (size alignment : Nat) (best : Option EmBlock),
      b.bsize < size →
      find_best_fit (EmTree.node l b r) size alignment best =
        find_best_fit r size alignment best) ∧
    (∀ (l r : EmTree) (b : EmBlock) (size alignment : Nat) (best : Option EmBlock),
      ¬b.bsize < size → ¬(size + em_padding b alignment ≤ b.bsize) →
      find_best_fit (EmTree.node l b r) size alignment best =
        find_best_fit r size alignment best) ∧
    (∀ (l r : EmTree) (b : EmBlock) (size alignment : Nat) (best : Option EmBlock),
      ¬b.bsize < size → size + em_padding b alignment ≤ b.bsize →
      find_best_fit (EmTree.node l b r) size alignment best =
        find_best_fit l size alignment
          (match best with
           | none => some b
           | some bb => if b.bsize < bb.bsize then some b else some bb)) ∧
    (∀ (t : EmTree) (size alignment : Nat) (b : EmBlock),
      find_best_fit t size alignment none = some b →
      em_accommodates b size alignment) := by
  refine ⟨?_, ?_, ?_, ?_⟩
  · intro l r b size alignment best h1
    simp only [find_best_fit]
    rw [if_pos h1]
  · intro l r b size alignment best h1 h2
    simp only [find_best_fit]
    rw [if_neg h1, if_neg h2]
  · intro l r b size alignment best h1 h2
    simp only [find_best_fit]
    rw [if_neg h1, if_pos h2]
  · intro t size alignment b hb
    exact find_best_fit_sound t size alignment none (by intro bb h; cases h) b hb

/-- Witness for C7: a three-node tree; the search skips the 40-byte block,
records the 100-byte root, and settles on the 64-byte block on the left,
which accommodates the request. -/
theorem find_best_fit_descent_witness :
    find_best_fit
        (EmTree.node (EmTree.node EmTree.leaf ⟨64, 32⟩ EmTree.leaf) ⟨100, 16⟩
          (EmTree.node EmTree.leaf ⟨200, 48⟩ EmTree.leaf))
        50 16 none = some ⟨64, 32⟩ ∧
    em_accommodates ⟨64, 32⟩ 50 16 ∧
    find_best_fit (EmTree.node EmTree.leaf ⟨40, 16⟩ EmTree.leaf) 50 16 none = none := by
  refine ⟨by decide, ?_, ?_⟩
  · exact find_best_fit_descent.2.2.2
      (EmTree.node (EmTree.node EmTree.leaf ⟨64, 32⟩ EmTree.leaf) ⟨100, 16⟩
        (EmTree.node EmTree.leaf ⟨200, 48⟩ EmTree.leaf))
      50 16 ⟨64, 32⟩ (by decide)
  · rw [find_best_fit_descent.1 EmTree.leaf EmTree.leaf ⟨40, 16⟩ 50 16 none (by decide)]
    rfl

/-! ### Arena free and merge (easy_memory.h) -/

theorem em_free_merge_both (before0 : List EmLayoutBlock)
    (pL x R : EmLayoutBlock) (r : EmLayoutBlock) (rest : List EmLayoutBlock)
    (hL : pL.free = true) (hR : R.free = true) :
    em_free_block_full (before0 ++ [pL]) x (R :: r :: rest) =
      before0 ++
        ⟨em_merge_size pL.size (em_merge_size x.size R.size), true⟩ :: r :: rest := by
  simp only [em_free_block_full, hR, if_pos, List.getLast?_concat, hL,
    List.dropLast_concat]

theorem em_free_merge_right (x R : EmLayoutBlock) (r : EmLayoutBlock)
    (rest before : List EmLayoutBlock)
    (hR : R.free = true)
    (hp : ∀ p, before.getLast? = some p → p.free = false) :
    em_free_block_full before x (R :: r :: rest) =
      before ++ ⟨em_merge_size x.size R.size, true⟩ :: r :: rest := by
  simp only [em_free_block_full, hR, if_pos]
  cases hb : before.getLast? with
  | none => rfl
  | some p =>
    have := hp p hb
    simp [this]

theorem em_free_merge_left (before0 : List EmLayoutBlock)
    (pL x t : EmLayoutBlock) (r : EmLayoutBlock) (rest : List EmLayoutBlock)
    (hL : pL.free = true) (ht : t.free = false) :
    em_free_block_full (before0 ++ [pL]) x (t :: r :: rest) =
      before0 ++ ⟨em_merge_size pL.size x.size, true⟩ :: t :: r :: rest := by
  simp only [em_free_block_full, ht, List.getLast?_concat, hL,
    List.dropLast_concat]
  simp

theorem em_free_merge_tail (before0 : List EmLayoutBlock) (pL x t : EmLayoutBlock)
    (hL : pL.free = true) :
    em_free_block_full (before0 ++ [pL]) x [t] = before0 ++ [⟨0, true⟩] := by
  simp only [em_free_block_full, List.getLast?_concat, hL, List.dropLast_concat]
  simp

theorem chain'_append_free_head (b0 : List EmLayoutBlock) (m : EmLayoutBlock)
    (suffix : List EmLayoutBlock)
    (hb0 : List.Chain' emAdjOk b0)
    (hlast : ∀ a ∈ b0.getLast?, a.free = false)
    (hms : List.Chain' emAdjOk (m :: suffix)) :
    List.Chain' emAdjOk (b0 ++ m :: suffix) := by
  rw [List.chain'_append]
  refine ⟨hb0, hms, ?_⟩
  intro a ha y hy
  intro hc
  rw [hlast a ha] at hc
  exact absurd hc.1 (by simp)

theorem chain'_cons_free_swap (a b : EmLayoutBlock) (l : List EmLayoutBlock)
    (ha : a.free = true) (h : List.Chain' emAdjOk (a :: l)) :
    List.Chain' emAdjOk (b :: l) := by
  cases l with
  | nil => exact List.chain'_singleton b
  | cons c l' =>
    rw [List.chain'_cons] at h ⊢
    refine ⟨?_, h.2⟩
    intro hc
    exact h.1 ⟨ha, hc.2⟩

theorem em_free_no_merge (x t r : EmLayoutBlock) (rest before : List EmLayoutBlock)
    (ht : t.free = false)
    (hp : ∀ p, before.getLast? = some p → p.free = false) :
    em_free_block_full before x (t :: r :: rest) =
      before ++ ⟨x.size, true⟩ :: t :: r :: rest := by
  simp only [em_free_block_full, ht]
  cases hb : before.getLast? with
  | none => simp
  | some p =>
    have := hp p hb
    simp [this]

theorem em_free_tail_nil_keep (before : List EmLayoutBlock) (x : EmLayoutBlock)
    (hp : ∀ p, before.getLast? = some p → p.free = false) :
    em_free_block_full before x [] = before ++ [⟨0, true⟩] := by
  simp only [em_free_block_full]
  cases hb : before.getLast? with
  | none => rfl
  | some p =>
    have := hp p hb
    simp [this]

theorem em_free_tail_one_keep (before : List EmLayoutBlock) (x t : EmLayoutBlock)
    (hp : ∀ p, before.getLast? = some p → p.free = false) :
    em_free_block_full before x [t] = before ++ [⟨0, true⟩] := by
  simp only [em_free_block_full]
  cases hb : before.getLast? with
  | none => rfl
  | some p =>
    have := hp p hb
    simp [this]

theorem em_free_tail_nil_merge (before0 : List EmLayoutBlock) (p x : EmLayoutBlock)
    (hL : p.free = true) :
    em_free_block_full (before0 ++ [p]) x [] = before0 ++ [⟨0, true⟩] := by
  simp only [em_free_block_full, List.getLast?_concat, hL, List.dropLast_concat]
  simp

theorem em_free_no_adjacent (before : List EmLayoutBlock) (x : EmLayoutBlock)
    (after : List EmLayoutBlock) (_hx : x.free = false)
    (h : emNoAdjFree (before ++ x :: after)) :
    emNoAdjFree (em_free_block_full before x after) := by
  unfold emNoAdjFree at h ⊢
  rcases before.eq_nil_or_concat with hb | ⟨b0, p, hb⟩ <;> subst hb
  · -- before = []
    simp only [List.nil_append] at h
    have hnil : ∀ q, ([] : List EmLayoutBlock).getLast? = some q → q.free = false := by
      intro q hq
      simp at hq
    rcases after with _ | ⟨t, after1⟩
    · rw [em_free_tail_nil_keep [] x hnil]
      simp
    · rcases after1 with _ | ⟨r, rest⟩
      · rw [em_free_tail_one_keep [] x t hnil]
        simp
      · have hxa' := List.chain'_cons.mp h
        have htr := List.chain'_cons.mp hxa'.2
        by_cases ht : t.free = true
        · rw [em_free_merge_right x t r rest [] ht hnil]
          simp only [List.nil_append]
          rw [List.chain'_cons]
          exact ⟨fun hc => htr.1 ⟨ht, hc.2⟩, htr.2⟩
        · rw [em_free_no_merge x t r rest [] (by simpa using ht) hnil]
          simp only [List.nil_append]
          rw [List.chain'_cons]
          exact ⟨fun hc => ht hc.2, hxa'.2⟩
  · -- before = b0 ++ [p]
    rw [List.concat_eq_append] at h ⊢
    rw [List.append_assoc, List.chain'_append] at h
    obtain ⟨hb0, hxa0, hlink⟩ := h
    have hxa0' : List.Chain' emAdjOk (p :: x :: after) := hxa0
    have hxa : List.Chain' emAdjOk (x :: after) := (List.chain'_cons.mp hxa0').2
    have hlink0 : ∀ a ∈ b0.getLast?, emAdjOk a p := by
      intro a ha
      exact hlink a ha p (by simp)
    have hq : p.free = true → ∀ a ∈ b0.getLast?, a.free = false := by
      intro hp a ha
      have := hlink0 a ha
      by_contra hcon
      exact this ⟨by simpa using hcon, hp⟩
    have hbp' : List.Chain' emAdjOk (b0 ++ [p]) := by
      rw [List.chain'_append]
      refine ⟨hb0, List.chain'_singleton _, ?_⟩
      intro a ha y hy
      have hyp : p = y := by simpa using hy
      subst hyp
      exact hlink0 a ha
    have hpfalse : ¬p.free = true →
        ∀ q, (b0 ++ [p]).getLast? = some q → q.free = false := by
      intro hp q hqe
      rw [List.getLast?_concat] at hqe
      cases hqe
      simpa using hp
    rcases after with _ | ⟨t, after1⟩
    · by_cases hp : p.free = true
      · rw [em_free_tail_nil_merge b0 p x hp]
        exact chain'_append_free_head b0 ⟨0, true⟩ [] hb0 (hq hp)
          (List.chain'_singleton _)
      · rw [em_free_tail_nil_keep (b0 ++ [p]) x (hpfalse hp)]
        exact chain'_append_free_head (b0 ++ [p]) ⟨0, true⟩ [] hbp' (hpfalse hp)
          (List.chain'_singleton _)
    · rcases after1 with _ | ⟨r, rest⟩
      · by_cases hp : p.free = true
        · rw [em_free_merge_tail b0 p x t hp]
          exact chain'_append_free_head b0 ⟨0, true⟩ [] hb0 (hq hp)
            (List.chain'_singleton _)
        · rw [em_free_tail_one_keep (b0 ++ [p]) x t (hpfalse hp)]
          exact chain'_append_free_head (b0 ++ [p]) ⟨0, true⟩ [] hbp' (hpfalse hp)
            (List.chain'_singleton _)
      · have hxa' := List.chain'_cons.mp hxa
        have htr := List.chain'_cons.mp hxa'.2
        by_cases ht : t.free = true
        · have hms : List.Chain' emAdjOk
              (⟨em_merge_size x.size t.size, true⟩ :: r :: rest) := by
            rw [List.chain'_cons]
            exact ⟨fun hc => htr.1 ⟨ht, hc.2⟩, htr.2⟩
          by_cases hp : p.free = true
          · rw [em_free_merge_both b0 p x t r rest hp ht]
            exact chain'_append_free_head b0 _ _ hb0 (hq hp)
              (chain'_cons_free_swap _ _ _ rfl hms)
          · rw [em_free_merge_right x t r rest (b0 ++ [p]) ht (hpfalse hp)]
            exact chain'_append_free_head (b0 ++ [p]) _ _ hbp' (hpfalse hp) hms
        · have hms : List.Chain' emAdjOk (⟨x.size, true⟩ :: t :: r :: rest) := by
            rw [List.chain'_cons]
            exact ⟨fun hc => ht hc.2, hxa'.2⟩
          by_cases hp : p.free = true
          · rw [em_free_merge_left b0 p x t r rest hp (by simpa using ht)]
            exact chain'_append_free_head b0 _ _ hb0 (hq hp)
              (chain'_cons_free_swap _ _ _ rfl hms)
          · rw [em_free_no_merge x t r rest (b0 ++ [p]) (by simpa using ht)
              (hpfalse hp)]
            exact chain'_append_free_head (b0 ++ [p]) _ _ hbp' (hpfalse hp) hms

/-- C8: freeing a block `x` between a free left neighbour `L` and a free
right neighbour `R` (with `R` not the tail) leaves the arena with a single
free block spanning `L ‖ x ‖ R` — the neighbours detached and merged, one
block header absorbed between each pair (`merge_blocks_logic`); when the
merged region ends at the tail, the layout instead ends in a size-zero free
tail; and freeing an occupied block never leaves two physically adjacent
free blocks. -/
theorem em_free_block_merge_laws :
    (∀ (before0 : List EmLayoutBlock) (pL x R r : EmLayoutBlock)
       (rest : List EmLayoutBlock), pL.free = true → R.free = true →
      em_free_block_full (before0 ++ [pL]) x (R :: r :: rest) =
        before0 ++
          ⟨em_merge_size pL.size (em_merge_size x.size R.size), true⟩ :: r :: rest) ∧
    (∀ (before0 : List EmLayoutBlock) (pL x t : EmLayoutBlock),
      pL.free = true →
      em_free_block_full (before0 ++ [pL]) x [t] = before0 ++ [⟨0, true⟩]) ∧
    (∀ (before : List EmLayoutBlock) (x : EmLayoutBlock)
       (after : List EmLayoutBlock), x.free = false →
      emNoAdjFree (before ++ x :: after) →
      emNoAdjFree (em_free_block_full before x after)) := by
  refine ⟨?_, ?_, ?_⟩
  · intro before0 pL x R r rest hL hR
    exact em_free_merge_both before0 pL x R r rest hL hR
  · intro before0 pL x t hL
    exact em_free_merge_tail before0 pL x t hL
  · intro before x after hx h
    exact em_free_no_adjacent before x after hx h

/-- Witness for C8: a five-block layout `[A, L, x, R, B, tail]`; freeing `x`
(48 bytes) merges `L` (16), `x` and `R` (8) into one free block of
`16 + 32 + 48 + 32 + 8 = 136` bytes, the result has no adjacent free blocks,
and the tail-merge case resets the tail. -/
theorem em_free_block_merge_laws_witness :
    em_free_block_full [⟨64, false⟩, ⟨16, true⟩] ⟨48, false⟩
        [⟨8, true⟩, ⟨24, false⟩, ⟨0, true⟩] =
      [⟨64, false⟩, ⟨136, true⟩, ⟨24, false⟩, ⟨0, true⟩] ∧
    em_free_block_full [⟨64, false⟩, ⟨16, true⟩] ⟨48, false⟩ [⟨0, true⟩] =
      [⟨64, false⟩, ⟨0, true⟩] ∧
    emNoAdjFree (em_free_block_full [⟨64, false⟩, ⟨16, true⟩] ⟨48, false⟩
      [⟨8, true⟩, ⟨24, false⟩, ⟨0, true⟩]) := by
  refine ⟨?_, ?_, ?_⟩
  · exact em_free_block_merge_laws.1 [⟨64, false⟩] ⟨16, true⟩ ⟨48, false⟩
      ⟨8, true⟩ ⟨24, false⟩ [⟨0, true⟩] rfl rfl
  · exact em_free_block_merge_laws.2.1 [⟨64, false⟩] ⟨16, true⟩ ⟨48, false⟩
      ⟨0, true⟩ rfl
  · exact em_free_block_merge_laws.2.2 [⟨64, false⟩, ⟨16, true⟩] ⟨48, false⟩
      [⟨8, true⟩, ⟨24, false⟩, ⟨0, true⟩] rfl
      (by
        simp [emNoAdjFree, emAdjOk, List.chain'_cons, List.chain'_singleton,
          List.cons_append, List.nil_append])

/-- C10: `su_is_written` never errs: it answers `false` when the unit is
closed and when the address is at or past `max_addresses`, and otherwise
answers the committed bit of the address. -/
theorem su_is_written_total (su? : Option SuModel) (address : Nat) :
    (su? = none → su_is_written su? address = false) ∧
    (∀ su, su? = some su → address ≥ su.max_addresses →
      su_is_written su? address = false) ∧
    (∀ su, su? = some su → address < su.max_addresses →
      su_is_written su? address =
        su_get_bit su.bm_bytes (address >>> 3) (1 <<< (address % 8))) := by
  refine ⟨?_, ?_, ?_⟩
  · intro h; subst h; rfl
  · intro su h hge; subst h
    simp [su_is_written, hge]
  · intro su h hlt; subst h
    simp [su_is_written, Nat.not_le.mpr hlt]

/-- Witness for C10: a two-byte bitmap with bit 9 committed. -/
theorem su_is_written_total_witness :
    su_is_written (some ⟨16, [0, 2]⟩) 9 = true ∧
    su_is_written (some ⟨16, [0, 2]⟩) 20 = false ∧
    su_is_written none 9 = false := by
  refine ⟨by decide, ?_, ?_⟩
  · exact (su_is_written_total (some ⟨16, [0, 2]⟩) 20).2.1 ⟨16, [0, 2]⟩ rfl (by decide)
  · exact (su_is_written_total none 9).1 rfl

/-! ### Socket return-value protocol (socket.c) -/

/-- Counterexample for C9 as stated: the claim requires every async primitive
to return the pair `(result | nil, error | nil)`, but `lunet_socket_write`
returns a *single* value — the error string on a synchronous failure
(socket.c:808-810 pushes one string and returns 1) and one value (`nil` or
the error string) when the completion callback resumes the writer
(socket.c:305-311 with `nargs = 1`). -/
theorem socket_write_single_value_cex :
    lunet_socket_write false true true false true true true "E" =
      LuaCallOutcome.ret [LuaValue.str "invalid socket handle"] ∧
    [LuaValue.str "invalid socket handle"].length = 1 ∧
    lunet_write_cb_resume true "E" = [LuaValue.nil] ∧
    (lunet_write_cb_resume true "E").length = 1 := by
  refine ⟨rfl, rfl, rfl, rfl⟩

/-- C9 (amended): `socket.read` follows the pair protocol — every synchronous
failure returns `(nil, error string)` without yielding, a successful launch
yields, and the completion callback resumes it with exactly two values of the
pair shape (`(bytes, nil)`, `(nil, nil)` on EOF, or `(nil, error)`) — while
`socket.write` uses a single-value protocol: synchronous failures return one
error string without yielding, a successful launch yields, and the completion
callback resumes it with exactly one value (`nil` on success or the error
string). -/
theorem socket_return_shapes :
    (∀ (vh cc busy uvOk : Bool) (err : String),
      lunet_socket_read vh cc busy uvOk err = LuaCallOutcome.yield ∨
      ∃ e, lunet_socket_read vh cc busy uvOk err =
        LuaCallOutcome.ret [LuaValue.nil, LuaValue.str e]) ∧
    (lunet_socket_read true true false true "E" = LuaCallOutcome.yield) ∧
    (∀ (nread : Int) (bytes err : String),
      lunet_read_cb_resume nread bytes err = [LuaValue.str bytes, LuaValue.nil] ∨
      lunet_read_cb_resume nread bytes err = [LuaValue.nil, LuaValue.nil] ∨
      lunet_read_cb_resume nread bytes err = [LuaValue.nil, LuaValue.str err]) ∧
    (∀ (vh isStr cc busy a1 a2 uvOk : Bool) (err : String),
      lunet_socket_write vh isStr cc busy a1 a2 uvOk err = LuaCallOutcome.yield ∨
      ∃ e, lunet_socket_write vh isStr cc busy a1 a2 uvOk err =
        LuaCallOutcome.ret [LuaValue.str e]) ∧
    (lunet_socket_write true true true false true true true "E" =
      LuaCallOutcome.yield) ∧
    (∀ (ok : Bool) (err : String),
      lunet_write_cb_resume ok err = [LuaValue.nil] ∨
      lunet_write_cb_resume ok err = [LuaValue.str err]) := by
  refine ⟨?_, rfl, ?_, ?_, rfl, ?_⟩
  · intro vh cc busy uvOk err
    cases vh <;> cases cc <;> cases busy <;> cases uvOk <;>
      first
        | exact Or.inl rfl
        | exact Or.inr ⟨_, rfl⟩
  · intro nread bytes err
    by_cases h1 : nread > 0
    · left
      simp [lunet_read_cb_resume, h1]
    · by_cases h2 : nread = UV_EOF
      · right; left
        simp [lunet_read_cb_resume, h1, h2, UV_EOF]
      · right; right
        simp [lunet_read_cb_resume, h1, h2]
  · intro vh isStr cc busy a1 a2 uvOk err
    cases vh <;> cases isStr <;> cases cc <;> cases busy <;> cases a1 <;>
      cases a2 <;> cases uvOk <;>
      first
        | exact Or.inl rfl
        | exact Or.inr ⟨_, rfl⟩
  · intro ok err
    cases ok
    · right; rfl
    · left; rfl
